import Mathlib

/-
Verification of the HabitCoachAI dashboard analytics engine.

Shallow embedding of the core analytics code:
  - `checkins/views.py`: streak computation, 7-day trend building,
    mood smoothing, risk-day classification, HRV readiness classification;
  - `checkins/services/scoring.py`: sigmoid and the habit-completion
    probability estimator;
  - `analytics/utils.py`: permutation test, mean/variance helpers and the
    approximate VIF calculator.

Calendar dates are modelled as integers (one unit = one day).  Python
floats that only ever undergo field arithmetic and comparisons are
modelled as rationals; values that flow through `exp` or `sqrt` are
modelled as reals.  Python `None` becomes `Option`, and an operation
that can raise becomes `Option`-valued (`none` = exception).

The file is organised as: all definitions first, then all lemmas and
theorems.
-/

namespace HabitCoach

/-! ### Data model -/

/-- Snapshot of an `HRVReading` row: nullable `rmssd_ms` and nullable
`resting_hr` (the only two fields the analytics code reads). -/
structure HRVReading where
  rmssd_ms : Option ℚ
  resting_hr : Option ℚ
deriving DecidableEq

/-- Snapshot of a `CheckIn` row as consumed by the trend builder:
its local calendar date, optional mood and status string. -/
structure CheckInRec where
  local_date : ℤ
  mood : Option ℚ
  status : String
deriving DecidableEq

/-- One entry of the trend list built by `_last_n_days`.  The
`mood_smooth` value attached later by the dashboard is produced
separately by `_smooth`, so it is not a field of the point. -/
structure TrendPoint where
  date : ℤ
  mood : Option ℚ
  status : String
deriving DecidableEq

instance : Inhabited TrendPoint := ⟨⟨0, none, "miss"⟩⟩

/-! ### Streak computation (`_compute_streak` in `checkins/views.py`) -/

/-- The backward walk of `_compute_streak`: starting at day `d`, count
how many consecutive days `d, d-1, d-2, ...` are present in `dates`.
This is the `while d in dates` loop of the Python code. -/
def streakFrom (dates : Finset ℤ) (d : ℤ) : ℕ :=
  if h : d ∈ dates then streakFrom dates (d - 1) + 1 else 0
termination_by (dates.filter (fun x => x ≤ d)).card
decreasing_by
  apply Finset.card_lt_card
  rw [Finset.ssubset_iff_of_subset]
  · exact ⟨d, Finset.mem_filter.2 ⟨h, le_refl d⟩, fun hc =>
      absurd (Finset.mem_filter.1 hc).2 (by omega)⟩
  · intro x hx
    rcases Finset.mem_filter.1 hx with ⟨hx1, hx2⟩
    exact Finset.mem_filter.2 ⟨hx1, by omega⟩

/-- `_compute_streak`: the Python function first returns 0 on an empty
date set, otherwise runs the backward walk from `today`. -/
def compute_streak (dates : Finset ℤ) (today : ℤ) : ℕ :=
  if dates = ∅ then 0 else streakFrom dates today

/-! ### Readiness classification (`_classify_readiness` in `checkins/views.py`)

The Python function returns a dict with a `label` and a long
`description`; only the label carries the classification, so the
embedding returns the label string. -/

/-- The RMSSD lookup of `_classify_readiness`:
`getattr(latest_hrv, "rmssd_ms", None) if latest_hrv is not None else None`. -/
def rmssd_of (latest : Option HRVReading) : Option ℚ :=
  match latest with
  | none => none
  | some h => h.rmssd_ms

/-- `_classify_readiness`: maps the latest HRV reading to one of four
labels using RMSSD thresholds only (60 and 40 ms). -/
def _classify_readiness (latest : Option HRVReading) : String :=
  match rmssd_of latest with
  | none => "No HRV data yet"
  | some rmssd =>
    if 60 ≤ rmssd then "High readiness"
    else if 40 ≤ rmssd then "Moderate readiness"
    else "Low readiness"

/-! ### Trend building (`_last_n_days` in `checkins/views.py`) -/

/-- The date-indexed dictionary `by_date = {c.local_date: c for c in qs}`:
on duplicate dates a later entry overwrites an earlier one, hence the
last match is taken.  (The Python queryset is pre-filtered to the
`[today-(n-1), today]` range, but the dictionary is only ever consulted
at dates inside that range, where the pre-filter changes nothing.) -/
def by_date (cs : List CheckInRec) (d : ℤ) : Option CheckInRec :=
  (cs.filter (fun c => decide (c.local_date = d))).getLast?

/-- `_last_n_days`: one `TrendPoint` per day of `[today-(n-1), today]`
in ascending order; a day with a check-in carries its mood and status,
a day without one carries `status = "miss"` and no mood. -/
def _last_n_days (cs : List CheckInRec) (today : ℤ) (n : ℕ) : List TrendPoint :=
  (List.range n).map (fun (i : ℕ) =>
    let d := today - ((n : ℤ) - 1 - (i : ℕ))
    match by_date cs d with
    | some c => ⟨d, c.mood, c.status⟩
    | none => ⟨d, none, "miss"⟩)

/-! ### Mood smoothing (`_smooth` in `checkins/views.py`) -/

/-- `_smooth`: trailing moving average with window `k` over optional
values.  Position `i` averages the non-`none` entries of the slice
`values[max(0, i-k+1) : i+1]`; an all-`none` window yields `none`.
Natural-number truncated subtraction gives exactly `max(0, i-k+1)`. -/
def _smooth (values : List (Option ℚ)) (k : ℕ) : List (Option ℚ) :=
  (List.range values.length).map (fun i =>
    let win := (((values.drop (i + 1 - k)).take (i + 1 - (i + 1 - k))).filterMap id)
    if win.isEmpty then none else some (win.sum / (win.length : ℚ)))

/-! ### Risk-day classification (dashboard step 4 in `checkins/views.py`) -/

/-- The risk predicate applied to each trend point in the dashboard:
`status in {"warn", "block"} or (mood is not None and mood <= 2)`. -/
def is_risk_day (p : TrendPoint) : Bool :=
  decide (p.status = "warn" ∨ p.status = "block") ||
    (match p.mood with
     | some m => decide (m ≤ 2)
     | none => false)

/-- The `risk_days` list of the dashboard: the trend points satisfying
the risk predicate, in order. -/
def risk_days (trend : List TrendPoint) : List TrendPoint :=
  trend.filter is_risk_day

/-- The `risk_count` value of the dashboard: `len(risk_days)`. -/
def risk_count (trend : List TrendPoint) : ℕ :=
  (risk_days trend).length

/-! ### Permutation test (`permutation_test` in `analytics/utils.py`) -/

/-- Python true division, which raises `ZeroDivisionError` on a zero
denominator: modelled as `none` in that case. -/
def pydiv (a b : ℚ) : Option ℚ :=
  if b = 0 then none else some (a / b)

/-- The pooled binary outcome list
`[1]*success_a + [0]*(total_a-success_a) + [1]*success_b + [0]*(total_b-success_b)`. -/
def pooled (sa ta sb tb : ℕ) : List ℕ :=
  List.replicate sa 1 ++ List.replicate (ta - sa) 0 ++
    List.replicate sb 1 ++ List.replicate (tb - sb) 0

/-- The proportion-difference statistic on a permuted split:
`sum(pooled[:total_a])/total_a - sum(pooled[total_a:])/total_b`. -/
def perm_stat (ta tb : ℕ) (perm : List ℕ) : ℚ :=
  (((perm.take ta).sum : ℚ) / (ta : ℚ)) - (((perm.drop ta).sum : ℚ) / (tb : ℚ))

/-- `permutation_test`.  The random `random.shuffle` draws are supplied
as an explicit sequence `shuffles` of permuted pooled lists, one per
iteration.  `iters` is an integer as in Python (`range` of a negative
number is empty); the final `count / iters` is Python true division and
raises (= `none`) when `iters = 0`. -/
def permutation_test (sa ta sb tb : ℕ) (iters : ℤ)
    (shuffles : ℕ → List ℕ) : Option ℚ :=
  if ta = 0 ∨ tb = 0 then some 1
  else
    let p_obs : ℚ := ((sa : ℚ) / (ta : ℚ)) - ((sb : ℚ) / (tb : ℚ))
    let count := ((List.range iters.toNat).filter
      (fun t => decide (|perm_stat ta tb (shuffles t)| ≥ |p_obs|))).length
    pydiv (count : ℚ) (iters : ℚ)

/-! ### Sigmoid and the completion estimator
(`_sigmoid` and `predict_habit_completion_probability` in
`checkins/services/scoring.py`) -/

/-- The mathematical sigmoid `1 / (1 + e^(-x))` computed by the `try`
branch of `_sigmoid`. -/
noncomputable def sigmoid (x : ℝ) : ℝ := 1 / (1 + Real.exp (-x))

/-- `_sigmoid` with the float-overflow outcome of `math.exp(-x)` made
explicit as a flag: when the `OverflowError` branch is taken the
function returns `0.0 if x < 0 else 1.0`, otherwise the sigmoid. -/
noncomputable def _sigmoid (overflow : Bool) (x : ℝ) : ℝ :=
  if overflow then (if x < 0 then 0 else 1) else 1 / (1 + Real.exp (-x))

/-- The RMSSD feature of the estimator:
`latest_hrv.rmssd_ms if latest_hrv and latest_hrv.rmssd_ms else 0.0`.
Python truthiness makes a stored value of exactly 0.0 fall back to the
default 0.0 as well, which is the same number. -/
def rmssd_feature (latest : Option HRVReading) : ℚ :=
  match latest with
  | none => 0
  | some h =>
    match h.rmssd_ms with
    | none => 0
    | some v => if v = 0 then 0 else v

/-- The resting-heart-rate feature of the estimator:
`latest_hrv.resting_hr if latest_hrv and latest_hrv.resting_hr else 70`
(again with Python truthiness: a stored 0 falls back to 70). -/
def resting_hr_feature (latest : Option HRVReading) : ℚ :=
  match latest with
  | none => 70
  | some h =>
    match h.resting_hr with
    | none => 70
    | some v => if v = 0 then 70 else v

/-- The linear logit of `predict_habit_completion_probability` with its
fixed coefficients b0 = -0.5, b1 = 0.25, b2 = 0.4, b3 = 0.6. -/
def completion_logit (n_recent : ℕ) (latest : Option HRVReading) : ℚ :=
  -0.5 + 0.25 * (n_recent : ℚ) + 0.4 * (rmssd_feature latest / 100) +
    0.6 * (-(resting_hr_feature latest - 60) / 100)

/-- `predict_habit_completion_probability`, abstracted over its two
queries: `n_recent` (the 7-day check-in count) and the latest HRV
reading.  No overflow can occur at these feature magnitudes, so the
sigmoid is the mathematical one. -/
noncomputable def predict_habit_completion_probability
    (n_recent : ℕ) (latest : Option HRVReading) : ℝ :=
  sigmoid ((completion_logit n_recent latest : ℚ) : ℝ)

/-- The dashboard display value `round(probability * 100.0, 1)`, tracked
in integer tenths of a percent: `round(p*100, 1) = this value / 10`. -/
noncomputable def displayed_percent_tenths (p : ℝ) : ℤ :=
  round (p * 100 * 10)

/-! ### Mean, variance and VIF (`_mean`, `_variance`, `quick_vif` in
`analytics/utils.py`) -/

/-- `_mean`: arithmetic mean, with the `float("nan")` sentinel for an
empty list modelled as `none`. -/
noncomputable def _mean (xs : List ℝ) : Option ℝ :=
  if xs.isEmpty then none else some (xs.sum / (xs.length : ℝ))

/-- `_variance`: unbiased sample variance, with the `float("nan")`
sentinel for lists of length at most 1 modelled as `none`.  The inner
mean is total here because the length guard implies non-emptiness. -/
noncomputable def _variance (xs : List ℝ) : Option ℝ :=
  if 1 < xs.length then
    some (((xs.map (fun x => (x - (_mean xs).getD 0) ^ 2)).sum) / ((xs.length : ℝ) - 1))
  else none

/-- The per-column scale factor of `quick_vif`:
`math.sqrt(s2) if s2 > 0 else 1.0`.  A NaN variance (modelled `none`)
compares false against 0 in Python and also falls back to 1.0. -/
noncomputable def sd_of (col : List ℝ) : ℝ :=
  match _variance col with
  | some s2 => if 0 < s2 then Real.sqrt s2 else 1
  | none => 1

/-- The z-score step of `quick_vif`: `[(x - m) / sd for x in col]`.  For
an empty column the map is empty, so the `getD` default standing in for
the NaN mean is never observable. -/
noncomputable def zscore (col : List ℝ) : List ℝ :=
  col.map (fun x => (x - (_mean col).getD 0) / sd_of col)

/-- The inner `pearson` helper of `quick_vif`, with its guarded division:
`num / (da * db) if da > 0 and db > 0 else 0.0`.  As in `zscore`, the
`getD` defaults are only reachable for empty inputs, where the sums are
empty and the guard already fails. -/
noncomputable def pearson (a b : List ℝ) : ℝ :=
  let m := (_mean a).getD 0
  let n := (_mean b).getD 0
  let num := ((a.zip b).map (fun p => (p.1 - m) * (p.2 - n))).sum
  let da := Real.sqrt ((a.map (fun x => (x - m) ^ 2)).sum)
  let db := Real.sqrt ((b.map (fun y => (y - n) ^ 2)).sum)
  if 0 < da ∧ 0 < db then num / (da * db) else 0

/-- `quick_vif`: approximate variance inflation factors.  At most one
column short-circuits to all-1.0; otherwise each column is z-scored and
`VIF_i = 1 / (1 - r2)` where `r2` clamps the squared average absolute
correlation with the other columns to [0, 0.99]. -/
noncomputable def quick_vif (columns : List (List ℝ)) : List ℝ :=
  if columns.length ≤ 1 then List.replicate columns.length 1
  else
    let zcols := columns.map zscore
    (List.range columns.length).map (fun (i : ℕ) =>
      let xi := zcols.getD i []
      let others := ((List.range columns.length).filter (fun j => decide (j ≠ i))).map
        (fun j => zcols.getD j [])
      if others.isEmpty then 1
      else
        let avg := ((others.map (fun oj => |pearson xi oj|)).sum) / (others.length : ℝ)
        let r2 := min 0.99 (max 0 (avg ^ 2))
        1 / (1 - r2))

end HabitCoach

namespace HabitCoach

/-! ### Lemmas about the streak computation -/

/-- Unfolding equation for the backward walk. -/
lemma streakFrom_unfold (dates : Finset ℤ) (d : ℤ) :
    streakFrom dates d = if d ∈ dates then streakFrom dates (d - 1) + 1 else 0 := by
  rw [streakFrom]
  split <;> simp_all

/-- Every day visited by a completed walk of length `n` is in the set. -/
lemma streakFrom_mem (dates : Finset ℤ) :
    ∀ (n : ℕ) (d : ℤ), streakFrom dates d = n → ∀ k : ℕ, k < n → d - k ∈ dates := by
  intro n
  induction n with
  | zero => intro d _ k hk; omega
  | succ m ih =>
    intro d h k hk
    rw [streakFrom_unfold] at h
    by_cases hd : d ∈ dates
    · rw [if_pos hd] at h
      cases k with
      | zero => simpa using hd
      | succ j =>
        have hj : d - 1 - (j : ℤ) ∈ dates := ih (d - 1) (by omega) j (by omega)
        have : d - ((j : ℕ) + 1 : ℕ) = d - 1 - (j : ℤ) := by push_cast; ring
        rwa [this]
    · rw [if_neg hd] at h; omega

/-- The walk stops at the first absent day. -/
lemma streakFrom_stop (dates : Finset ℤ) :
    ∀ (n : ℕ) (d : ℤ), streakFrom dates d = n → d - n ∉ dates := by
  intro n
  induction n with
  | zero =>
    intro d h
    rw [streakFrom_unfold] at h
    by_cases hd : d ∈ dates
    · rw [if_pos hd] at h; omega
    · simpa using hd
  | succ m ih =>
    intro d h
    rw [streakFrom_unfold] at h
    by_cases hd : d ∈ dates
    · rw [if_pos hd] at h
      have := ih (d - 1) (by omega)
      have heq : d - ((m : ℕ) + 1 : ℕ) = d - 1 - (m : ℤ) := by push_cast; ring
      rwa [heq]
    · rw [if_neg hd] at h; omega

/-- The walk never exceeds the number of distinct dates in the set. -/
lemma streakFrom_le_card (dates : Finset ℤ) (d : ℤ) :
    streakFrom dates d ≤ dates.card := by
  have hmem := streakFrom_mem dates (streakFrom dates d) d rfl
  have : (Finset.range (streakFrom dates d)).card ≤ dates.card := by
    apply Finset.card_le_card_of_injOn (fun k : ℕ => d - (k : ℤ))
    · intro k hk
      exact hmem k (Finset.mem_range.1 hk)
    · intro a _ b _ hab
      simp only at hab
      omega
  simpa using this

/-- The guard on the empty set is redundant: the walk returns 0 there. -/
lemma compute_streak_eq_streakFrom (dates : Finset ℤ) (today : ℤ) :
    compute_streak dates today = streakFrom dates today := by
  unfold compute_streak
  split
  · subst dates
    rw [streakFrom_unfold]
    simp
  · rfl

/-- Concrete evaluation of the streak on the two-day set `{0, -1}`. -/
lemma compute_streak_two : compute_streak ({0, -1} : Finset ℤ) 0 = 2 := by
  rw [compute_streak_eq_streakFrom, streakFrom_unfold]
  rw [if_pos (by decide)]
  rw [show (0 : ℤ) - 1 = -1 by ring, streakFrom_unfold]
  rw [if_pos (by decide)]
  rw [show (-1 : ℤ) - 1 = -2 by ring, streakFrom_unfold]
  rw [if_neg (by decide)]

/-! ### Claim theorems: streak -/

/-- C2: the streak returned by `_compute_streak` is the largest `n ≥ 0` such
that `today, today-1, ..., today-(n-1)` all lie in the check-in date set
`S`: every day it counts is in `S`, any candidate count is dominated by it,
the empty set yields 0, and any set not containing `today` yields 0. -/
theorem compute_streak_spec (dates : Finset ℤ) (today : ℤ) :
    (∀ k : ℕ, k < compute_streak dates today → today - k ∈ dates) ∧
    (∀ m : ℕ, (∀ k : ℕ, k < m → today - k ∈ dates) → m ≤ compute_streak dates today) ∧
    compute_streak (∅ : Finset ℤ) today = 0 ∧
    (today ∉ dates → compute_streak dates today = 0) := by
  rw [compute_streak_eq_streakFrom]
  refine ⟨streakFrom_mem dates _ today rfl, ?_, ?_, ?_⟩
  · intro m hm
    by_contra hlt
    push_neg at hlt
    exact streakFrom_stop dates _ today rfl (hm _ hlt)
  · rw [compute_streak]; simp
  · intro htoday
    rw [streakFrom_unfold, if_neg htoday]

/-- Witness for C2: on the set `{0, -1}` with `today = 0`, the first
conjunct puts day `0` in the set and the maximality conjunct forces the
streak to be at least 2. -/
theorem compute_streak_spec_witness :
    (0 : ℤ) - (0 : ℕ) ∈ ({0, -1} : Finset ℤ) ∧
    2 ≤ compute_streak ({0, -1} : Finset ℤ) 0 := by
  constructor
  · exact (compute_streak_spec ({0, -1} : Finset ℤ) 0).1 0 (by rw [compute_streak_two]; omega)
  · exact (compute_streak_spec ({0, -1} : Finset ℤ) 0).2.1 2 (by decide)

/-- C10: the backward walk of `_compute_streak` terminates (it is a total
function here, each step removing one element of the finite date set from
the candidates), and the resulting streak never exceeds the number of
distinct check-in dates. -/
theorem compute_streak_le_card (dates : Finset ℤ) (today : ℤ) :
    compute_streak dates today ≤ dates.card := by
  rw [compute_streak_eq_streakFrom]
  exact streakFrom_le_card dates today

/-! ### Claim theorems: readiness classification -/

/-- C3: `_classify_readiness` returns exactly one of four labels
determined solely by RMSSD: no RMSSD value yields "No HRV data yet",
`rmssd ≥ 60` yields "High readiness", `40 ≤ rmssd < 60` yields
"Moderate readiness", `rmssd < 40` yields "Low readiness", and the
resting heart rate never changes the label. -/
theorem classify_readiness_spec :
    (∀ latest : Option HRVReading,
      rmssd_of latest = none → _classify_readiness latest = "No HRV data yet") ∧
    (∀ (latest : Option HRVReading) (r : ℚ), rmssd_of latest = some r →
      ((60 ≤ r → _classify_readiness latest = "High readiness") ∧
       (40 ≤ r → r < 60 → _classify_readiness latest = "Moderate readiness") ∧
       (r < 40 → _classify_readiness latest = "Low readiness"))) ∧
    (∀ (r hr hr' : Option ℚ),
      _classify_readiness (some ⟨r, hr⟩) = _classify_readiness (some ⟨r, hr'⟩)) := by
  refine ⟨?_, ?_, ?_⟩
  · intro latest h
    unfold _classify_readiness
    rw [h]
  · intro latest r h
    unfold _classify_readiness
    rw [h]
    dsimp only
    refine ⟨?_, ?_, ?_⟩
    · intro h60
      rw [if_pos h60]
    · intro h40 hlt
      rw [if_neg (by linarith), if_pos h40]
    · intro hlt
      rw [if_neg (by linarith), if_neg (by linarith)]
  · intro r hr hr'
    unfold _classify_readiness rmssd_of
    rfl

/-- Witness for C3: a reading with RMSSD 65 (resting HR 50) classifies
as "High readiness", and an absent reading as "No HRV data yet". -/
theorem classify_readiness_spec_witness :
    _classify_readiness (some ⟨some 65, some 50⟩) = "High readiness" ∧
    _classify_readiness none = "No HRV data yet" := by
  constructor
  · exact (classify_readiness_spec.2.1 (some ⟨some 65, some 50⟩) 65 rfl).1 (by norm_num)
  · exact classify_readiness_spec.1 none rfl

/-! ### Claim theorems: risk classification -/

/-- C6: a trend point is flagged as a risk day exactly when its status is
"warn" or "block" or its mood is present and at most 2; a "warn" day with
mood 5 is flagged, a mood-1 day with status "ok" is flagged, a mood-3
"ok" day is not; and the exposed `risk_count` is the length of the
exposed `risk_days` list. -/
theorem risk_classifier_spec :
    (∀ p : TrendPoint, is_risk_day p = true ↔
      (p.status = "warn" ∨ p.status = "block" ∨ ∃ m : ℚ, p.mood = some m ∧ m ≤ 2)) ∧
    (∀ trend : List TrendPoint, risk_count trend = (risk_days trend).length) ∧
    is_risk_day ⟨0, some 5, "warn"⟩ = true ∧
    is_risk_day ⟨0, some 1, "ok"⟩ = true ∧
    is_risk_day ⟨0, some 3, "ok"⟩ = false := by
  refine ⟨?_, fun _ => rfl, by decide, by decide, by decide⟩
  intro p
  unfold is_risk_day
  rcases p with ⟨d, mood, status⟩
  cases mood with
  | none => simp [or_assoc]
  | some m => simp [or_assoc]

/-! ### Claim theorems: mood smoothing -/

/-- `_smooth` preserves the length of its input. -/
lemma smooth_length (values : List (Option ℚ)) (k : ℕ) :
    (_smooth values k).length = values.length := by
  unfold _smooth
  simp

/-- Pointwise description of `_smooth`: entry `i` is computed from the
slice `values[max(0, i-k+1) : i+1]`, here written take-then-drop so the
window bounds of the claim are explicit. -/
lemma smooth_get (values : List (Option ℚ)) (k i : ℕ) (h : i < values.length) :
    (_smooth values k).getD i none =
      (let w := ((values.take (i + 1)).drop (i + 1 - k)).filterMap id
       if w.isEmpty then none else some (w.sum / (w.length : ℚ))) := by
  rw [List.getD_eq_getElem _ _ (by rw [smooth_length]; exact h)]
  simp only [_smooth, List.getElem_map, List.getElem_range]
  rw [List.drop_take]

/-- Concrete run of the smoother used by the claim. -/
lemma smooth_example :
    _smooth [some 2, some 4, none, some 6] 3 = [some 2, some 3, some 3, some 5] := by
  simp [_smooth, List.range_succ]
  norm_num

/-- C5: `_smooth` preserves length; entry `i` is the mean of the
non-absent values among positions `max(0, i-k+1) .. i` (absent when all
are absent); and with `k = 3` the input `[2, 4, None, 6]` smooths to
`[2.0, 3.0, 3.0, 5.0]`. -/
theorem smooth_spec (values : List (Option ℚ)) (k : ℕ) (hk : 1 ≤ k) :
    (_smooth values k).length = values.length ∧
    (∀ i, i < values.length →
      (_smooth values k).getD i none =
        (let w := ((values.take (i + 1)).drop (i + 1 - k)).filterMap id
         if w.isEmpty then none else some (w.sum / (w.length : ℚ)))) ∧
    _smooth [some 2, some 4, none, some 6] 3 = [some 2, some 3, some 3, some 5] :=
  ⟨smooth_length values k, fun i h => smooth_get values k i h, smooth_example⟩

/-- Witness for C5: with `k = 3` on `[2, 4, None, 6]`, the output has
length 4 and entry 3 is the mean `5` of the window values `{4, 6}`. -/
theorem smooth_spec_witness :
    (_smooth [some 2, some 4, none, some 6] 3).length = 4 ∧
    (_smooth [some 2, some 4, none, some 6] 3).getD 3 none = some 5 := by
  constructor
  · exact (smooth_spec [some 2, some 4, none, some 6] 3 (by norm_num)).1
  · rw [(smooth_spec [some 2, some 4, none, some 6] 3 (by norm_num)).2.2]
    rfl

/-! ### Claim theorems: trend building -/

/-- `_last_n_days` returns exactly `n` points. -/
lemma last_n_days_length (cs : List CheckInRec) (today : ℤ) (n : ℕ) :
    (_last_n_days cs today n).length = n := by
  unfold _last_n_days
  simp

/-- Pointwise description of `_last_n_days`. -/
lemma last_n_days_get (cs : List CheckInRec) (today : ℤ) (n i : ℕ) (h : i < n) :
    (_last_n_days cs today n).getD i default =
      (match by_date cs (today - ((n : ℤ) - 1 - (i : ℤ))) with
       | some c => ⟨today - ((n : ℤ) - 1 - (i : ℤ)), c.mood, c.status⟩
       | none => ⟨today - ((n : ℤ) - 1 - (i : ℤ)), none, "miss"⟩) := by
  rw [List.getD_eq_getElem _ _ (by rw [last_n_days_length]; exact h)]
  simp only [_last_n_days, List.getElem_map, List.getElem_range]

/-- C4: for `n ≥ 1`, `_last_n_days` returns exactly `n` points whose
dates are the consecutive days `today-(n-1), ..., today` in ascending
order; a day with a check-in carries that record's mood and status, and
a day without one carries status "miss" and no mood. -/
theorem last_n_days_spec (cs : List CheckInRec) (today : ℤ) (n : ℕ) (hn : 1 ≤ n) :
    (_last_n_days cs today n).length = n ∧
    (∀ i, i < n →
      ((_last_n_days cs today n).getD i default).date = today - ((n : ℤ) - 1 - (i : ℤ))) ∧
    ((_last_n_days cs today n).getD 0 default).date = today - ((n : ℤ) - 1) ∧
    ((_last_n_days cs today n).getD (n - 1) default).date = today ∧
    (∀ i, i < n →
      (∀ c : CheckInRec, by_date cs (today - ((n : ℤ) - 1 - (i : ℤ))) = some c →
        (_last_n_days cs today n).getD i default =
          ⟨today - ((n : ℤ) - 1 - (i : ℤ)), c.mood, c.status⟩) ∧
      (by_date cs (today - ((n : ℤ) - 1 - (i : ℤ))) = none →
        (_last_n_days cs today n).getD i default =
          ⟨today - ((n : ℤ) - 1 - (i : ℤ)), none, "miss"⟩)) := by
  have hdate : ∀ i, i < n →
      ((_last_n_days cs today n).getD i default).date = today - ((n : ℤ) - 1 - (i : ℤ)) := by
    intro i h
    rw [last_n_days_get cs today n i h]
    rcases hb : by_date cs (today - ((n : ℤ) - 1 - (i : ℤ))) with _ | c <;> simp
  refine ⟨last_n_days_length cs today n, hdate, ?_, ?_, ?_⟩
  · have := hdate 0 (by omega)
    rw [this]
    push_cast
    ring
  · have := hdate (n - 1) (by omega)
    rw [this]
    have hcast : ((n - 1 : ℕ) : ℤ) = (n : ℤ) - 1 := by omega
    rw [hcast]
    ring
  · intro i h
    constructor
    · intro c hc
      rw [last_n_days_get cs today n i h, hc]
    · intro hc
      rw [last_n_days_get cs today n i h, hc]

/-- Witness for C4: with no check-in records, a one-day window ending on
day 0 is the single gap point with status "miss" and no mood. -/
theorem last_n_days_spec_witness :
    (_last_n_days [] 0 1).length = 1 ∧
    (_last_n_days [] 0 1).getD 0 default = ⟨0, none, "miss"⟩ := by
  constructor
  · exact (last_n_days_spec [] 0 1 (by norm_num)).1
  · have := ((last_n_days_spec [] 0 1 (by norm_num)).2.2.2.2 0 (by norm_num)).2 (by decide)
    simpa using this

/-! ### Claim theorems: permutation test -/

/-- C8 counterexample: the claim promises a returned value `count/iterations`
and no exception for every integer iteration count, but with non-degenerate
totals (1,1,1,1) and `iters = 0` the final `count / iters` is a division by
zero and the Python code raises `ZeroDivisionError` (modelled as `none`). -/
theorem permutation_test_iters_zero_counterexample :
    permutation_test 1 1 1 1 0 (fun _ => pooled 1 1 1 1) = none := by
  unfold permutation_test
  rw [if_neg (by norm_num)]
  unfold pydiv
  norm_num

/-- C8 (amended to nonzero iteration counts): with either total zero the
test returns exactly 1.0 without permuting; otherwise, for `iters ≠ 0`,
it returns `count / iters` where `count` is the number of permuted splits
whose absolute proportion-difference statistic is at least the absolute
observed statistic; and for positive `iters` the returned p-value always
lies in [0, 1] (no exception). -/
theorem permutation_test_spec (sa ta sb tb : ℕ) (iters : ℤ) (shuffles : ℕ → List ℕ)
    (hsa : sa ≤ ta) (hsb : sb ≤ tb)
    (hperm : ∀ t, (shuffles t).Perm (pooled sa ta sb tb)) :
    (ta = 0 ∨ tb = 0 → permutation_test sa ta sb tb iters shuffles = some 1) ∧
    (ta ≠ 0 → tb ≠ 0 → iters ≠ 0 →
      permutation_test sa ta sb tb iters shuffles =
        some ((((List.range iters.toNat).filter
          (fun t => decide (|perm_stat ta tb (shuffles t)| ≥
            |(sa : ℚ) / (ta : ℚ) - (sb : ℚ) / (tb : ℚ)|))).length : ℚ) / (iters : ℚ))) ∧
    (0 < iters → ∀ q : ℚ, permutation_test sa ta sb tb iters shuffles = some q →
      0 ≤ q ∧ q ≤ 1) := by
  refine ⟨?_, ?_, ?_⟩
  · intro h
    unfold permutation_test
    rw [if_pos h]
  · intro h1 h2 h3
    unfold permutation_test
    rw [if_neg (by tauto)]
    unfold pydiv
    rw [if_neg (by exact_mod_cast h3)]
  · intro hpos q hq
    by_cases hdeg : ta = 0 ∨ tb = 0
    · unfold permutation_test at hq
      rw [if_pos hdeg] at hq
      obtain rfl : (1 : ℚ) = q := by simpa using hq
      norm_num
    · unfold permutation_test at hq
      rw [if_neg hdeg] at hq
      unfold pydiv at hq
      rw [if_neg (by exact_mod_cast (by omega : iters ≠ 0))] at hq
      obtain rfl : _ = q := by exact Option.some.inj hq
      have hcount : (((List.range iters.toNat).filter
          (fun t => decide (|perm_stat ta tb (shuffles t)| ≥
            |(sa : ℚ) / (ta : ℚ) - (sb : ℚ) / (tb : ℚ)|))).length : ℚ) ≤ (iters : ℚ) := by
        have hle : ((List.range iters.toNat).filter
            (fun t => decide (|perm_stat ta tb (shuffles t)| ≥
              |(sa : ℚ) / (ta : ℚ) - (sb : ℚ) / (tb : ℚ)|))).length ≤ iters.toNat :=
          le_trans (List.length_filter_le _ _) (by simp)
        calc (((List.range iters.toNat).filter
            (fun t => decide (|perm_stat ta tb (shuffles t)| ≥
              |(sa : ℚ) / (ta : ℚ) - (sb : ℚ) / (tb : ℚ)|))).length : ℚ)
            ≤ (iters.toNat : ℚ) := by exact_mod_cast hle
          _ = (iters : ℚ) := by
              have h0 : (iters.toNat : ℤ) = iters := Int.toNat_of_nonneg (by omega)
              exact_mod_cast h0
      have hiters : (0 : ℚ) < (iters : ℚ) := by exact_mod_cast hpos
      constructor
      · positivity
      · rw [div_le_one hiters]
        exact hcount

/-- Witness for C8: equal groups (1 success of 1 in both), 2 iterations,
each shuffle returning the pooled list itself; every permuted statistic
ties the observed one, so the p-value is 2/2 = 1. -/
theorem permutation_test_spec_witness :
    permutation_test 1 1 1 1 2 (fun _ => pooled 1 1 1 1) = some 1 := by
  have h := (permutation_test_spec 1 1 1 1 2 (fun _ => pooled 1 1 1 1)
    (by norm_num) (by norm_num) (fun t => List.Perm.refl _)).2.1
    (by norm_num) (by norm_num) (by norm_num)
  rw [h]
  have h2 : ((2 : ℤ).toNat) = 2 := rfl
  norm_num [pooled, perm_stat, List.range_succ, h2]

/-! ### Claim theorems: sigmoid safety -/

/-- C7: `_sigmoid` is total (no exception escapes) with values always in
[0, 1]; without overflow it returns `1/(1+e^(-x))`, and on overflow it
returns 0.0 for negative inputs and 1.0 for positive ones. -/
theorem sigmoid_safe_spec (b : Bool) (x : ℝ) :
    0 ≤ _sigmoid b x ∧ _sigmoid b x ≤ 1 ∧
    _sigmoid false x = 1 / (1 + Real.exp (-x)) ∧
    (b = true → x < 0 → _sigmoid b x = 0) ∧
    (b = true → 0 < x → _sigmoid b x = 1) := by
  have hexp : (0 : ℝ) < Real.exp (-x) := Real.exp_pos _
  have hbase0 : (0 : ℝ) ≤ 1 / (1 + Real.exp (-x)) := by positivity
  have hbase1 : 1 / (1 + Real.exp (-x)) ≤ 1 := by
    rw [div_le_one (by linarith)]
    linarith
  refine ⟨?_, ?_, ?_, ?_, ?_⟩
  · unfold _sigmoid
    cases b with
    | false => simpa using hbase0
    | true =>
      simp only [if_true]
      split <;> norm_num
  · unfold _sigmoid
    cases b with
    | false => simpa using hbase1
    | true =>
      simp only [if_true]
      split <;> norm_num
  · unfold _sigmoid
    simp
  · intro hb hx
    subst hb
    unfold _sigmoid
    rw [if_pos rfl, if_pos hx]
  · intro hb hx
    subst hb
    unfold _sigmoid
    rw [if_pos rfl, if_neg (by linarith)]

/-- Witness for C7: on overflow the clamp yields 0 at `x = -1` and 1 at
`x = 1`, and the non-overflow value at 0 is nonnegative. -/
theorem sigmoid_safe_spec_witness :
    _sigmoid true (-1) = 0 ∧ _sigmoid true 1 = 1 ∧ 0 ≤ _sigmoid false 0 := by
  refine ⟨(sigmoid_safe_spec true (-1)).2.2.2.1 rfl (by norm_num),
    (sigmoid_safe_spec true 1).2.2.2.2 rfl (by norm_num),
    (sigmoid_safe_spec false 0).1⟩

/-! ### Claim theorems: completion estimator -/

/-- Taylor-series bounds on `e^0.56`, tight enough to settle the display
rounding (the true value is 1.75067...). -/
lemma exp_bound_56 :
    (17504/10000 : ℝ) < Real.exp (14/25) ∧ Real.exp (14/25) < (17508/10000 : ℝ) := by
  have habs : |(14/25 : ℝ)| = 14/25 := by rw [abs_of_nonneg]; norm_num
  have h := Real.exp_bound (x := (14/25 : ℝ)) (by rw [habs]; norm_num) (n := 6) (by norm_num)
  rw [abs_le, habs] at h
  obtain ⟨h1, h2⟩ := h
  norm_num [Finset.sum_range_succ, Nat.factorial] at h1 h2
  constructor <;> linarith

/-- With no check-ins in the window and no HRV reading ever, the logit is
`-0.5 + 0.6 * (-(70-60)/100) = -0.56`. -/
lemma completion_logit_zero : completion_logit 0 none = -14/25 := by
  norm_num [completion_logit, rmssd_feature, resting_hr_feature]

/-- The default-input probability is `sigmoid (-0.56)`. -/
lemma predict_zero :
    predict_habit_completion_probability 0 none = sigmoid (-0.56) := by
  unfold predict_habit_completion_probability
  rw [completion_logit_zero]
  norm_num

/-- `sigmoid (-0.56) * 100`, rounded to one decimal, is 36.4 (364 tenths). -/
lemma sigmoid_neg56_tenths : round (sigmoid (-0.56) * 100 * 10) = 364 := by
  have hb := exp_bound_56
  have hs : sigmoid (-0.56) = 1 / (1 + Real.exp (14/25)) := by
    unfold sigmoid
    rw [show (-0.56 : ℝ) = -(14/25) by norm_num, neg_neg]
  have hexp : (0 : ℝ) < Real.exp (14/25) := Real.exp_pos _
  have hden : (0 : ℝ) < 1 + Real.exp (14/25) := by linarith
  have hlo : 1 / (1 + (17508/10000 : ℝ)) ≤ 1 / (1 + Real.exp (14/25)) :=
    one_div_le_one_div_of_le hden (by linarith [hb.2])
  have hhi : 1 / (1 + Real.exp (14/25)) ≤ 1 / (1 + (17504/10000 : ℝ)) :=
    one_div_le_one_div_of_le (by norm_num) (by linarith [hb.1])
  rw [hs, round_eq, Int.floor_eq_iff]
  push_cast
  constructor
  · norm_num at hlo ⊢
    linarith
  · norm_num at hhi ⊢
    linarith

/-- C1 counterexample: the spec predicts a displayed percentage of 36.3
for the all-defaults input, but the code displays
`round(sigmoid(-0.56) * 100, 1) = 36.4` (364 tenths, not 363). -/
theorem completion_estimator_display_counterexample :
    displayed_percent_tenths (predict_habit_completion_probability 0 none) ≠ 363 := by
  unfold displayed_percent_tenths
  rw [predict_zero, sigmoid_neg56_tenths]
  decide

/-- C1 (amended in the final approximation: the all-defaults probability
is `sigmoid(-0.56)` which is approximately 0.3635, displaying as 36.4):
the estimator computes `sigmoid(-0.5 + 0.25*n_recent + 0.4*(rmssd/100) +
0.6*(-(resting_hr-60)/100))`, RMSSD defaults to 0.0 and resting HR to 70
when no reading exists, and the all-defaults display value is 36.4. -/
theorem completion_estimator_spec :
    (∀ (n_recent : ℕ) (latest : Option HRVReading),
      predict_habit_completion_probability n_recent latest =
        sigmoid (((-0.5 + 0.25 * (n_recent : ℚ) + 0.4 * (rmssd_feature latest / 100) +
          0.6 * (-(resting_hr_feature latest - 60) / 100) : ℚ) : ℝ))) ∧
    rmssd_feature none = 0 ∧
    resting_hr_feature none = 70 ∧
    predict_habit_completion_probability 0 none = sigmoid (-0.56) ∧
    displayed_percent_tenths (predict_habit_completion_probability 0 none) = 364 := by
  refine ⟨fun n latest => rfl, rfl, rfl, predict_zero, ?_⟩
  unfold displayed_percent_tenths
  rw [predict_zero, sigmoid_neg56_tenths]

/-! ### Lemmas about mean, variance, z-scores and VIF -/

/-- Sum of a list after subtracting a constant from each entry. -/
lemma list_sum_map_sub (l : List ℝ) (m : ℝ) :
    (l.map (fun x => x - m)).sum = l.sum - l.length * m := by
  induction l with
  | nil => simp
  | cons a t ih => simp [ih]; ring

/-- Sum of a list after dividing each entry by a constant. -/
lemma list_sum_map_div (l : List ℝ) (f : ℝ → ℝ) (c : ℝ) :
    (l.map (fun x => f x / c)).sum = (l.map f).sum / c := by
  induction l with
  | nil => simp
  | cons a t ih => simp [ih]; ring

/-- A constant vector has zero summed squared deviation from its mean. -/
lemma sq_dev_replicate (n : ℕ) (c : ℝ) :
    ((List.replicate n c).map
      (fun x => (x - (_mean (List.replicate n c)).getD 0) ^ 2)).sum = 0 := by
  cases n with
  | zero => simp
  | succ k =>
    have hm : (_mean (List.replicate (k + 1) c)).getD 0 = c := by
      unfold _mean
      rw [if_neg (by simp)]
      simp only [Option.getD_some, List.sum_replicate, List.length_replicate, nsmul_eq_mul]
      field_simp
    rw [hm]
    simp

/-- The guarded division makes any correlation against a constant
left vector 0. -/
lemma pearson_const_left (n : ℕ) (c : ℝ) (b : List ℝ) :
    pearson (List.replicate n c) b = 0 := by
  unfold pearson
  rw [if_neg]
  intro hcon
  rcases hcon with ⟨h1, _⟩
  rw [sq_dev_replicate, Real.sqrt_zero] at h1
  exact lt_irrefl 0 h1

/-- The guarded division makes any correlation against a constant
right vector 0. -/
lemma pearson_const_right (a : List ℝ) (n : ℕ) (c : ℝ) :
    pearson a (List.replicate n c) = 0 := by
  unfold pearson
  rw [if_neg]
  intro hcon
  rcases hcon with ⟨_, h2⟩
  rw [sq_dev_replicate, Real.sqrt_zero] at h2
  exact lt_irrefl 0 h2

/-- `zscore` preserves length. -/
lemma zscore_length (col : List ℝ) : (zscore col).length = col.length := by
  unfold zscore; simp

/-- A z-scored column sums to zero. -/
lemma zscore_sum (col : List ℝ) (hne : ¬ col.isEmpty) : (zscore col).sum = 0 := by
  have hn : (col.length : ℝ) ≠ 0 := by
    simp only [ne_eq, Nat.cast_eq_zero, List.length_eq_zero]
    intro h
    rw [h] at hne
    simp at hne
  have hm : (_mean col).getD 0 = col.sum / (col.length : ℝ) := by
    unfold _mean
    rw [if_neg hne]
    rfl
  unfold zscore
  rw [list_sum_map_div col (fun x => x - (_mean col).getD 0) (sd_of col)]
  rw [list_sum_map_sub, hm]
  field_simp

/-- A z-scored column has mean 0. -/
lemma zscore_mean_zero (col : List ℝ) (hne : ¬ col.isEmpty) :
    _mean (zscore col) = some 0 := by
  unfold _mean
  rw [if_neg (by unfold zscore; simpa using hne)]
  rw [zscore_sum col hne]
  norm_num

/-- A column with positive variance z-scores to unit sample variance. -/
lemma zscore_variance_one (col : List ℝ) (s2 : ℝ)
    (hv : _variance col = some s2) (hpos : 0 < s2) :
    _variance (zscore col) = some 1 := by
  have hlen : 1 < col.length := by
    by_contra h
    unfold _variance at hv
    rw [if_neg h] at hv
    exact Option.noConfusion hv
  have hne : ¬ col.isEmpty := by
    intro h
    rw [List.isEmpty_iff] at h
    rw [h] at hlen
    simp at hlen
  have hn1 : ((col.length : ℝ) - 1) ≠ 0 := by
    have : (1 : ℝ) < (col.length : ℝ) := by exact_mod_cast hlen
    linarith
  have hsum : ((col.map (fun x => (x - (_mean col).getD 0) ^ 2)).sum) =
      s2 * ((col.length : ℝ) - 1) := by
    unfold _variance at hv
    rw [if_pos hlen] at hv
    have := Option.some.inj hv
    field_simp at this ⊢
    linarith [this]
  have hsd : sd_of col = Real.sqrt s2 := by
    unfold sd_of
    rw [hv]
    dsimp only
    rw [if_pos hpos]
  have hsd2 : sd_of col ^ 2 = s2 := by
    rw [hsd]
    exact Real.sq_sqrt hpos.le
  unfold _variance
  rw [if_pos (by rw [zscore_length]; exact hlen)]
  rw [zscore_mean_zero col hne]
  have hz : ((zscore col).map (fun z => (z - (some (0:ℝ)).getD 0) ^ 2)).sum =
      ((col.map (fun x => (x - (_mean col).getD 0) ^ 2)).sum) / s2 := by
    unfold zscore
    rw [List.map_map]
    have hfun : ((fun z => (z - (some (0:ℝ)).getD 0) ^ 2) ∘
        (fun x => (x - (_mean col).getD 0) / sd_of col)) =
        (fun x => ((x - (_mean col).getD 0) ^ 2) / s2) := by
      funext x
      simp only [Function.comp, Option.getD_some, sub_zero]
      rw [div_pow, hsd2]
    rw [hfun]
    exact list_sum_map_div col (fun x => (x - (_mean col).getD 0) ^ 2) s2
  rw [hz, hsum, zscore_length]
  congr 1
  field_simp

/-- `quick_vif` returns one value per input column. -/
lemma quick_vif_length (columns : List (List ℝ)) :
    (quick_vif columns).length = columns.length := by
  unfold quick_vif
  split
  · simp
  · simp

/-- Pointwise description of `quick_vif` past the short-circuit. -/
lemma quick_vif_get (columns : List (List ℝ)) (h2 : 2 ≤ columns.length)
    (i : ℕ) (hi : i < columns.length) :
    (quick_vif columns).getD i 0 =
      (let zcols := columns.map zscore
       let xi := zcols.getD i []
       let others := ((List.range columns.length).filter (fun j => decide (j ≠ i))).map
         (fun j => zcols.getD j [])
       if others.isEmpty then 1
       else 1 / (1 - min 0.99 (max 0
         ((((others.map (fun oj => |pearson xi oj|)).sum) / (others.length : ℝ)) ^ 2)))) := by
  rw [List.getD_eq_getElem _ _ (by rw [quick_vif_length]; exact hi)]
  simp only [quick_vif]
  rw [List.getElem_of_eq (if_neg (by omega)) _]
  simp only [List.getElem_map, List.getElem_range]

/-- The clamp on the proxy R-squared bounds every VIF to [1, 100]. -/
lemma one_div_one_sub_bounds (r2 : ℝ) (h0 : 0 ≤ r2) (h99 : r2 ≤ 0.99) :
    1 ≤ 1 / (1 - r2) ∧ 1 / (1 - r2) ≤ 100 := by
  have hpos : (0 : ℝ) < 1 - r2 := by linarith
  constructor
  · rw [le_div_iff₀ hpos]
    linarith
  · rw [div_le_iff₀ hpos]
    linarith

/-- With at least two columns the list of other column indices is never
empty, so the `if not others` fallback of `quick_vif` is unreachable. -/
lemma range_filter_ne_nil (n i : ℕ) (h2 : 2 ≤ n) :
    (List.range n).filter (fun j => decide (j ≠ i)) ≠ [] := by
  intro hnil
  have hmem : (if i = 0 then 1 else 0) ∈ (List.range n).filter (fun j => decide (j ≠ i)) := by
    rw [List.mem_filter]
    constructor
    · rw [List.mem_range]
      split <;> omega
    · simp only [decide_eq_true_eq]
      split <;> omega
  rw [hnil] at hmem
  exact List.not_mem_nil _ hmem

/-! ### Claim theorems: VIF calculator -/

/-- C9 counterexample: a zero-variance column is not left raw by the
z-score step; it is still mean-centered (with scale factor 1.0), so the
constant column [5, 5] becomes [0, 0], not [5, 5]. -/
theorem zscore_zero_variance_counterexample :
    zscore [5, 5] = [0, 0] ∧ ([0, 0] : List ℝ) ≠ ([5, 5] : List ℝ) := by
  constructor
  · have hm : _mean [5, 5] = some 5 := by
      unfold _mean
      norm_num
    have hv : _variance [(5:ℝ), 5] = some 0 := by
      unfold _variance
      rw [if_pos (by norm_num)]
      rw [hm]
      norm_num
    have hsd : sd_of [(5:ℝ), 5] = 1 := by
      unfold sd_of
      rw [hv]
      norm_num
    unfold zscore
    rw [hm, hsd]
    norm_num
  · intro h
    have h5 := congrArg List.headI h
    simp only [List.headI] at h5
    norm_num at h5

/-- C9 (amended on the zero-variance column: it skips scaling with scale
factor 1.0 but is still mean-centered, not left raw): `quick_vif` on zero
or one column returns 1.0 per column; past that, the VIF of column `i` is
exactly `1/(1 - r2)` where `r2` is the square of the average absolute
Pearson correlation between z-scored column `i` and every other z-scored
column, clamped to [0, 0.99], so every VIF lies in [1, 100]; Pearson
correlation involving a constant (zero-variance) vector is 0.0; a
non-positive or undefined variance yields scale factor 1.0; and a
positive-variance column is genuinely z-score normalized (mean 0, unit
sample variance). -/
theorem quick_vif_spec :
    quick_vif [] = [] ∧
    (∀ c : List ℝ, quick_vif [c] = [1]) ∧
    (∀ columns : List (List ℝ), 2 ≤ columns.length → ∀ i, i < columns.length →
      (quick_vif columns).getD i 0 = 1 / (1 - min 0.99 (max 0
          (((((((List.range columns.length).filter (fun j => decide (j ≠ i))).map
            (fun j => (columns.map zscore).getD j [])).map
              (fun oj => |pearson ((columns.map zscore).getD i []) oj|)).sum) /
            ((((List.range columns.length).filter (fun j => decide (j ≠ i))).map
              (fun j => (columns.map zscore).getD j [])).length : ℝ)) ^ 2))) ∧
        1 ≤ (quick_vif columns).getD i 0 ∧ (quick_vif columns).getD i 0 ≤ 100) ∧
    (∀ (n : ℕ) (c : ℝ) (b : List ℝ), pearson (List.replicate n c) b = 0) ∧
    (∀ (a : List ℝ) (n : ℕ) (c : ℝ), pearson a (List.replicate n c) = 0) ∧
    (∀ (col : List ℝ) (s2 : ℝ), _variance col = some s2 → ¬ 0 < s2 → sd_of col = 1) ∧
    (∀ col : List ℝ, _variance col = none → sd_of col = 1) ∧
    (∀ col : List ℝ, ¬ col.isEmpty → _mean (zscore col) = some 0) ∧
    (∀ (col : List ℝ) (s2 : ℝ), _variance col = some s2 → 0 < s2 →
      _variance (zscore col) = some 1) := by
  refine ⟨by unfold quick_vif; simp, ?_, ?_, pearson_const_left, pearson_const_right,
    ?_, ?_, zscore_mean_zero, zscore_variance_one⟩
  · intro c
    unfold quick_vif
    simp
  · intro columns h2 i hi
    rw [quick_vif_get columns h2 i hi]
    dsimp only
    have hne : (((List.range columns.length).filter (fun j => decide (j ≠ i))).map
        (fun j => (columns.map zscore).getD j [])).isEmpty = false := by
      have hnil := range_filter_ne_nil columns.length i h2
      simp only [List.isEmpty_eq_false, ne_eq, List.map_eq_nil_iff]
      exact hnil
    rw [if_neg (by rw [hne]; exact Bool.false_ne_true)]
    have h0 : (0 : ℝ) ≤ min 0.99 (max 0
        (((((((List.range columns.length).filter (fun j => decide (j ≠ i))).map
          (fun j => (columns.map zscore).getD j [])).map
            (fun oj => |pearson ((columns.map zscore).getD i []) oj|)).sum) /
          ((((List.range columns.length).filter (fun j => decide (j ≠ i))).map
            (fun j => (columns.map zscore).getD j [])).length : ℝ)) ^ 2)) :=
      le_min (by norm_num) (le_max_left 0 _)
    have h99 : min (0.99 : ℝ) (max 0
        (((((((List.range columns.length).filter (fun j => decide (j ≠ i))).map
          (fun j => (columns.map zscore).getD j [])).map
            (fun oj => |pearson ((columns.map zscore).getD i []) oj|)).sum) /
          ((((List.range columns.length).filter (fun j => decide (j ≠ i))).map
            (fun j => (columns.map zscore).getD j [])).length : ℝ)) ^ 2)) ≤ 0.99 :=
      min_le_left _ _
    exact ⟨rfl, (one_div_one_sub_bounds _ h0 h99).1, (one_div_one_sub_bounds _ h0 h99).2⟩
  · intro col s2 hv hns
    unfold sd_of
    rw [hv]
    dsimp only
    rw [if_neg hns]
  · intro col hv
    unfold sd_of
    rw [hv]

/-- Witness for C9: a single column yields [1.0], and on the two-column
input [[1],[2]] the first VIF is at least 1. -/
theorem quick_vif_spec_witness :
    quick_vif [[(1:ℝ)]] = [1] ∧ 1 ≤ (quick_vif [[(1:ℝ)], [2]]).getD 0 0 := by
  constructor
  · exact quick_vif_spec.2.1 [(1:ℝ)]
  · exact (quick_vif_spec.2.2.1 [[(1:ℝ)], [2]] (by norm_num) 0 (by norm_num)).2.1

end HabitCoach
